import Mathlib

/-
Shallow embedding of the DNS message codec from app/dns/server.go
(the Packet / Header / Question / ResourceRecord codec).

Go byte slices are modelled as `List Nat` whose entries are byte
values; Go machine integers are modelled as `Nat`, with shifts and
masks written either with Nat bitwise operators or with the
equivalent `/ 2^k` and `% 2^k` arithmetic where noted.
Fallible Go functions returning `(..., error)` are modelled with
`Except DnsError`.
-/

/-- Error kinds of the codec, one per distinct `errors.New` message in
the source: "packet too short", "buffer overflow", "too many jumps",
"label too long". -/
inductive DnsError where
  | tooShort
  | bufferOverflow
  | tooManyJumps
  | labelTooLong
deriving DecidableEq

structure Header where
  ID : Nat
  QR : Bool
  OpCode : Nat
  AA : Bool
  TC : Bool
  RD : Bool
  RA : Bool
  Z : Nat
  ResponseCode : Nat
  QuestionCount : Nat
  AnswerCount : Nat
  AuthorityCount : Nat
  AdditionalCount : Nat
deriving DecidableEq

structure Question where
  Name : List Nat
  «Type» : Nat
  Class : Nat
deriving DecidableEq

structure ResourceRecord where
  Name : List Nat
  «Type» : Nat
  Class : Nat
  TTL : Nat
  RDLength : Nat
  RData : List Nat
deriving DecidableEq

structure Packet where
  Header : Header
  Question : Question
  Answer : List ResourceRecord
  Authority : List ResourceRecord
  Additional : List ResourceRecord
deriving DecidableEq

/-- binary.BigEndian.Uint16 on two bytes: `uint16(b0)<<8 | uint16(b1)`;
for byte arguments (< 256) the disjoint bitwise or is addition. -/
def getUint16 (b0 b1 : Nat) : Nat := b0 * 256 + b1

/-- binary.BigEndian.Uint32 on four bytes. -/
def getUint32 (b0 b1 b2 b3 : Nat) : Nat := ((b0 * 256 + b1) * 256 + b2) * 256 + b3

/-- binary.BigEndian.PutUint16: bytes `byte(v>>8), byte(v)`, i.e.
`v / 2^8 % 2^8` and `v % 2^8`. -/
def putUint16 (v : Nat) : List Nat := [v / 256 % 256, v % 256]

/-- binary.BigEndian.PutUint32. -/
def putUint32 (v : Nat) : List Nat :=
  [v / 16777216 % 256, v / 65536 % 256, v / 256 % 256, v % 256]

/-- The flags word built by Serialize from the numeric encodings of the
flag fields (each boolean contributes its bit via `b <<< k` with
`b ∈ {0,1}`, mirroring the conditional `flags |= 1 << k`).  The Go
shift `uint16(OpCode) << 11` is a uint16 operation, hence the
`% 65536`. -/
def mkFlags (qb op ab tb rb rab z rc : Nat) : Nat :=
  (qb <<< 15) ||| (op <<< 11) % 65536 ||| (ab <<< 10) ||| (tb <<< 9) |||
    (rb <<< 8) ||| (rab <<< 7) ||| (z <<< 4) ||| rc

def headerFlags (h : Header) : Nat :=
  mkFlags (if h.QR then 1 else 0) h.OpCode (if h.AA then 1 else 0)
    (if h.TC then 1 else 0) (if h.RD then 1 else 0) (if h.RA then 1 else 0)
    h.Z h.ResponseCode

/-- The 12 header bytes written by Packet.Serialize: ID, flags and the
four counts, each big-endian 16-bit. -/
def headerBytes (h : Header) : List Nat :=
  putUint16 h.ID ++ putUint16 (headerFlags h) ++ putUint16 h.QuestionCount ++
    putUint16 h.AnswerCount ++ putUint16 h.AuthorityCount ++ putUint16 h.AdditionalCount

/-- The header-field extraction performed by Packet.Deserialize on
bytes 0..11 (the < 12 length guard lives in Deserialize, as in the
source). -/
def parseHeader (data : List Nat) : Header :=
  let flags := getUint16 (data.getD 2 0) (data.getD 3 0)
  { ID := getUint16 (data.getD 0 0) (data.getD 1 0)
    QR := decide (flags &&& 32768 ≠ 0)
    OpCode := (flags >>> 11) &&& 15
    AA := decide (flags &&& 1024 ≠ 0)
    TC := decide (flags &&& 512 ≠ 0)
    RD := decide (flags &&& 256 ≠ 0)
    RA := decide (flags &&& 128 ≠ 0)
    Z := (flags >>> 4) &&& 7
    ResponseCode := flags &&& 15
    QuestionCount := getUint16 (data.getD 4 0) (data.getD 5 0)
    AnswerCount := getUint16 (data.getD 6 0) (data.getD 7 0)
    AuthorityCount := getUint16 (data.getD 8 0) (data.getD 9 0)
    AdditionalCount := getUint16 (data.getD 10 0) (data.getD 11 0) }

/-- strings.Split(name, ".") on a byte-string; 46 is the dot byte. -/
def splitOnDot : List Nat → List (List Nat)
  | [] => [[]]
  | b :: rest =>
    if b = 46 then [] :: splitOnDot rest
    else
      match splitOnDot rest with
      | [] => [[b]]
      | l :: ls => (b :: l) :: ls

/-- Joining labels back with dots (used only in proofs, to state what
the decoded byte-string is). -/
def joinDot : List (List Nat) → List Nat
  | [] => []
  | [l] => l
  | l :: l' :: ls => l ++ 46 :: joinDot (l' :: ls)

/-- The per-label loop of encodeDomainName: length byte (the length is
≤ 63 after the check, so the `byte` cast is the identity) followed by
the label bytes; fails with "label too long" when a label exceeds 63
bytes. -/
def encodeLabels : List (List Nat) → Except DnsError (List Nat)
  | [] => .ok []
  | label :: rest =>
    if 63 < label.length then .error .labelTooLong
    else
      match encodeLabels rest with
      | .error e => .error e
      | .ok restBytes => .ok (label.length :: label ++ restBytes)

/-- encodeDomainName: split on '.', emit each label length-prefixed,
then the terminating zero byte. -/
def encodeDomainName (name : List Nat) : Except DnsError (List Nat) :=
  match encodeLabels (splitOnDot name) with
  | .error e => .error e
  | .ok b => .ok (b ++ [0])

/-- The return value built after the decode loop: the accumulated
"label." pieces minus the trailing dot, or "." when no label was
read. -/
def finalizeName (acc : List Nat) : List Nat :=
  if 0 < acc.length then acc.dropLast else [46]

/-- The loop body of decodeDomainName, made structurally recursive on
an explicit fuel argument (`none` = fuel exhausted; the adequacy
theorem shows the fuel used by `decodeDomainName` is never exhausted).
State: read cursor `offset`, accumulated name bytes `acc`, the
`jumped` flag and the jump counter.  Checks appear in source order:
jump ceiling, cursor bound, terminator, pointer, label bounds.  In the
pointer branch the source's `if !jumped { offset += 2 }` writes to
`offset` but is immediately overwritten by `offset = pointer`, so the
only observable pointer-branch effects are the new cursor, the
`jumped` flag and the incremented jump counter. -/
def decodeLoopF (data : List Nat) : Nat → Nat → List Nat → Bool → Nat →
    Option (Except DnsError (List Nat × Nat))
  | 0, _, _, _, _ => none
  | fuel + 1, offset, acc, jumped, jumps =>
    if 5 < jumps then some (.error .tooManyJumps)
    else if data.length ≤ offset then some (.error .bufferOverflow)
    else
      let length := data.getD offset 0
      if length = 0 then some (.ok (finalizeName acc, offset + 1))
      else if length &&& 192 = 192 then
        if data.length ≤ offset + 1 then some (.error .bufferOverflow)
        else
          let pointer := (length * 256 + data.getD (offset + 1) 0) &&& 16383
          decodeLoopF data fuel pointer acc true (jumps + 1)
      else if data.length < offset + 1 + length then some (.error .bufferOverflow)
      else
        decodeLoopF data fuel (offset + 1 + length)
          (acc ++ (data.drop (offset + 1)).take length ++ [46]) jumped jumps

/-- decodeDomainName: run the loop with enough fuel for any input (the
adequacy theorem below shows `7 * (len + 1) + 1` steps always
suffice); the `getD` default is never reached. -/
def decodeDomainName (data : List Nat) (offset : Nat) : Except DnsError (List Nat × Nat) :=
  (decodeLoopF data (7 * (data.length + 1) + 1) offset [] false 0).getD
    (.error .bufferOverflow)

def serializeQuestion (q : Question) : Except DnsError (List Nat) :=
  match encodeDomainName q.Name with
  | .error e => .error e
  | .ok nameBytes => .ok (nameBytes ++ putUint16 q.«Type» ++ putUint16 q.Class)

def serializeResourceRecord (rr : ResourceRecord) : Except DnsError (List Nat) :=
  match encodeDomainName rr.Name with
  | .error e => .error e
  | .ok nameBytes =>
    .ok (nameBytes ++ putUint16 rr.«Type» ++ putUint16 rr.Class ++
      putUint32 rr.TTL ++ putUint16 rr.RDLength ++ rr.RData)

/-- The serialize loop over one record section, concatenating each
record's bytes in order and stopping at the first error. -/
def serializeRecords : List ResourceRecord → Except DnsError (List Nat)
  | [] => .ok []
  | rr :: rest =>
    match serializeResourceRecord rr with
    | .error e => .error e
    | .ok b =>
      match serializeRecords rest with
      | .error e => .error e
      | .ok bs => .ok (b ++ bs)

/-- Packet.Serialize: header bytes, then the single question, then the
Answer, Authority and Additional sections in order. -/
def Packet.Serialize (p : Packet) : Except DnsError (List Nat) :=
  match serializeQuestion p.Question with
  | .error e => .error e
  | .ok qb =>
    match serializeRecords p.Answer with
    | .error e => .error e
    | .ok ab =>
      match serializeRecords p.Authority with
      | .error e => .error e
      | .ok tb =>
        match serializeRecords p.Additional with
        | .error e => .error e
        | .ok db => .ok (headerBytes p.Header ++ qb ++ ab ++ tb ++ db)

def deserializeQuestion (data : List Nat) (offset : Nat) :
    Except DnsError (Question × Nat) :=
  match decodeDomainName data offset with
  | .error e => .error e
  | .ok (nm, off) =>
    if data.length < off + 4 then .error .tooShort
    else
      .ok (⟨nm, getUint16 (data.getD off 0) (data.getD (off + 1) 0),
        getUint16 (data.getD (off + 2) 0) (data.getD (off + 3) 0)⟩, off + 4)

def deserializeResourceRecord (data : List Nat) (offset : Nat) :
    Except DnsError (ResourceRecord × Nat) :=
  match decodeDomainName data offset with
  | .error e => .error e
  | .ok (nm, off) =>
    if data.length < off + 10 then .error .tooShort
    else
      let rdl := getUint16 (data.getD (off + 8) 0) (data.getD (off + 9) 0)
      if data.length < off + 10 + rdl then .error .tooShort
      else
        .ok (⟨nm, getUint16 (data.getD off 0) (data.getD (off + 1) 0),
          getUint16 (data.getD (off + 2) 0) (data.getD (off + 3) 0),
          getUint32 (data.getD (off + 4) 0) (data.getD (off + 5) 0)
            (data.getD (off + 6) 0) (data.getD (off + 7) 0),
          rdl, (data.drop (off + 10)).take rdl⟩, off + 10 + rdl)

/-- The per-section deserialize loop: read `n` resource records in
sequence, threading the cursor (the source's indexed loop over a
`make`-allocated slice, which on success holds exactly `n` parsed
records). -/
def deserializeRecords (data : List Nat) (offset : Nat) :
    Nat → Except DnsError (List ResourceRecord × Nat)
  | 0 => .ok ([], offset)
  | n + 1 =>
    match deserializeResourceRecord data offset with
    | .error e => .error e
    | .ok (rr, off') =>
      match deserializeRecords data off' n with
      | .error e => .error e
      | .ok (rest, off'') => .ok (rr :: rest, off'')

/-- Packet.Deserialize: length guard, header fields, one question at
offset 12, then AnswerCount, AuthorityCount and AdditionalCount
records. -/
def Packet.Deserialize (data : List Nat) : Except DnsError Packet :=
  if data.length < 12 then .error .tooShort
  else
    match deserializeQuestion data 12 with
    | .error e => .error e
    | .ok (q, off1) =>
      match deserializeRecords data off1 (parseHeader data).AnswerCount with
      | .error e => .error e
      | .ok (ans, off2) =>
        match deserializeRecords data off2 (parseHeader data).AuthorityCount with
        | .error e => .error e
        | .ok (auth, off3) =>
          match deserializeRecords data off3 (parseHeader data).AdditionalCount with
          | .error e => .error e
          | .ok (addl, _) => .ok ⟨parseHeader data, q, ans, auth, addl⟩

/-- The byte sequence `encodeLabels` produces on success (used to
state the roundtrip lemmas). -/
def encBytes : List (List Nat) → List Nat
  | [] => []
  | l :: ls => l.length :: l ++ encBytes ls

/-- The byte sequence the decode loop accumulates: each label followed
by a dot (used to state the roundtrip lemmas). -/
def flat46 : List (List Nat) → List Nat
  | [] => []
  | l :: ls => l ++ 46 :: flat46 ls

/- Concrete buffers used by several claims below. -/

/-- A buffer holding the name "foo" at offset 0 and, at offset 5, a
compression pointer targeting offset 0. -/
def ptrBackData : List Nat := [3, 102, 111, 111, 0, 192, 0]

/-- A 63-byte label (63 copies of byte 97, 'a'). -/
def label63 : List Nat := List.replicate 63 97

/-- Four 63-byte labels: encoded form is 4*64+1 = 257 bytes, beyond
the 255-byte data-model bound. -/
def longNameData : List Nat :=
  (63 :: label63) ++ (63 :: label63) ++ (63 :: label63) ++ (63 :: label63) ++ [0]

def longName : List Nat := label63 ++ 46 :: label63 ++ 46 :: label63 ++ 46 :: label63

/-- A chain of five compression pointers (offsets 0,2,4,6,8) ending at
the zero byte at offset 10. -/
def fiveJumpData : List Nat := [192, 2, 192, 4, 192, 6, 192, 8, 192, 10, 0]

/-- A chain of six compression pointers (offsets 0,2,...,10) ending at
the zero byte at offset 12. -/
def sixJumpData : List Nat := [192, 2, 192, 4, 192, 6, 192, 8, 192, 10, 192, 12, 0]

/-- Header declaring QuestionCount = 2 (all other counts 0), followed
by exactly one encoded question: name "a", type 1, class 1; 19 bytes
in total, so no second question is present in the buffer. -/
def qc2Data : List Nat := [0,0, 0,0, 0,2, 0,0, 0,0, 0,0, 1,97,0, 0,1, 0,1]

/-- The packet Deserialize produces from `qc2Data`. -/
def qc2Packet : Packet :=
  ⟨⟨0, false, 0, false, false, false, false, 0, 0, 2, 0, 0, 0⟩, ⟨[97], 1, 1⟩, [], [], []⟩

/-- Header declaring AnswerCount = 1; root-name question (type 1,
class 1) at offset 12; answer record at offset 17 with root name,
fixed fields at 18..27 declaring RDLength = 5; the buffer ends at
byte 28, before any of the 5 declared RDATA bytes. -/
def truncatedRDataPacket : List Nat :=
  [0,0, 0,0, 0,0, 0,1, 0,0, 0,0, 0, 0,1, 0,1, 0, 0,1, 0,1, 0,0,0,0, 0,5]

/-- Claim C1: the spec says the resume cursor returned after a
compressed name is the position immediately after the first 2-byte
pointer (here 5 + 2 = 7).  The code's `offset += 2` in the pointer
branch is immediately overwritten by `offset = pointer`, so the
returned cursor is instead the position after the pointer target's
terminating zero byte: decoding the pointer at offset 5 of
`ptrBackData` yields the name "foo" with cursor 5, not 7. -/
theorem decode_resume_cursor_is_target_end :
    decodeDomainName ptrBackData 5 = .ok ([102, 111, 111], 5) ∧ (5 : Nat) ≠ 5 + 2 :=
  ⟨rfl, by decide⟩

/-- Claim C5: a chain of six pointer jumps fails with TooManyJumps,
while a chain of exactly five valid jumps succeeds (decoding the root
placeholder "." with the cursor after the final zero byte). -/
theorem decode_jump_limit :
    decodeDomainName sixJumpData 0 = .error .tooManyJumps ∧
      decodeDomainName fiveJumpData 0 = .ok ([46], 11) :=
  ⟨rfl, rfl⟩

/-- Claim C6 counterexample: encoding the root name "." does not yield
the single byte 0x00.  strings.Split(".", ".") produces two empty
labels, each contributing a zero length byte, before the terminator:
the result is [0, 0, 0]. -/
theorem encode_root_cex :
    encodeDomainName [46] = .ok [0, 0, 0] ∧ ([0, 0, 0] : List Nat) ≠ [0] :=
  ⟨rfl, by decide⟩

/-- Claim C6 (amended): encoding the root name "." succeeds and yields
the three bytes [0, 0, 0] (two empty-label length bytes plus the
terminator), not the single byte 0x00. -/
theorem encode_root_three_zeros : encodeDomainName [46] = .ok [0, 0, 0] := rfl

/-- Claim C10: a compression pointer may point forward.  In the buffer
[0xC0, 3, 0, 1, 'a', 0] the pointer at offset 0 targets offset 3 —
beyond the two pointer bytes — and decoding succeeds with the name
"a" and cursor 6. -/
theorem decode_forward_pointer :
    decodeDomainName [192, 3, 0, 1, 97, 0] 0 = .ok ([97], 6) ∧ 0 + 2 ≤ 3 :=
  ⟨rfl, by decide⟩

/-- Claim C3 counterexample: the name "a..b" has labels ["a", "", "b"],
each of length at most 63, but its empty middle label encodes as a
zero byte that terminates decoding early: decode(encode "a..b")
returns the name "a" with cursor 3, not "a..b" with cursor 6. -/
theorem roundtrip_empty_label_cex :
    encodeDomainName [97, 46, 46, 98] = .ok [1, 97, 0, 1, 98, 0] ∧
      decodeDomainName [1, 97, 0, 1, 98, 0] 0 = .ok ([97], 3) ∧
      ([97] : List Nat) ≠ [97, 46, 46, 98] :=
  ⟨rfl, rfl, by decide⟩

/-- Claim C7 counterexample: Deserialize on a buffer whose header
declares QuestionCount = 2 but which contains exactly one encoded
question (19 bytes total) succeeds, consuming one question — it does
not consume "exactly QuestionCount questions". -/
theorem deserialize_question_count_cex :
    Packet.Deserialize qc2Data = .ok qc2Packet ∧
      qc2Packet.Header.QuestionCount = 2 ∧ qc2Data.length = 19 :=
  ⟨rfl, rfl, rfl⟩

/-- Claim C8 counterexample: a buffer with a 64-byte label decodes
successfully; the decoded name is a single label of 64 bytes,
violating the data-model bound of 63 bytes per label. -/
theorem decode_label64_cex :
    decodeDomainName (64 :: List.replicate 64 97 ++ [0]) 0 =
        .ok (List.replicate 64 97, 66) ∧
      splitOnDot (List.replicate 64 97) = [List.replicate 64 97] ∧
      63 < (List.replicate 64 97).length :=
  ⟨rfl, by decide, by decide⟩

set_option maxRecDepth 20000 in
/-- Claim C8 (amended): decodeDomainName enforces no data-model
bounds: a 100-byte label is accepted, and a name whose encoded form
is 257 bytes (four 63-byte labels) — beyond the 255-byte bound — also
decodes successfully. -/
theorem decode_no_size_bounds :
    decodeDomainName (100 :: List.replicate 100 97 ++ [0]) 0 =
        .ok (List.replicate 100 97, 102) ∧
      decodeDomainName longNameData 0 = .ok (longName, 257) ∧ 255 < 257 :=
  ⟨rfl, rfl, by decide⟩

/- Termination of the decode loop (claim C2). -/

/-- Fuel adequacy: starting from jump counter `jumps` and cursor
`offset`, the loop returns within
`(6 - jumps) * (len + 1) + (len + 1 - offset) + 1` steps: every label
iteration strictly advances the cursor while it stays in bounds, and
at most six pointer iterations can occur before the jump ceiling
errors out. -/
theorem decodeLoopF_isSome (data : List Nat) :
    ∀ (fuel offset : Nat) (acc : List Nat) (jumped : Bool) (jumps : Nat),
      (6 - jumps) * (data.length + 1) + (data.length + 1 - offset) + 1 ≤ fuel →
      (decodeLoopF data fuel offset acc jumped jumps).isSome := by
  intro fuel
  induction fuel with
  | zero => intro offset acc jumped jumps h; omega
  | succ f ih =>
    intro offset acc jumped jumps h
    simp only [decodeLoopF]
    split
    · simp
    · split
      · simp
      · split
        · simp
        · split
          · split
            · simp
            · apply ih
              rename_i hjumps hoff hlen hptr hbound
              have e1 : 6 - jumps = (6 - (jumps + 1)) + 1 := by omega
              rw [e1, Nat.succ_mul] at h
              generalize (6 - (jumps + 1)) * (data.length + 1) = M at h ⊢
              omega
          · split
            · simp
            · apply ih
              rename_i hjumps hoff hlen hptr hbound
              generalize hM : (6 - jumps) * (data.length + 1) = M at h ⊢
              generalize hL : data.getD offset 0 = len at *
              omega

/-- Claim C2: decodeDomainName terminates on every input buffer and
starting offset — the loop, run with the fuel `decodeDomainName`
supplies, always yields a result (a name with a cursor, or an error),
including on cyclic or self-referential pointer chains. -/
theorem decode_always_returns (data : List Nat) (offset : Nat) :
    decodeLoopF data (7 * (data.length + 1) + 1) offset [] false 0 =
      some (decodeDomainName data offset) := by
  have h := decodeLoopF_isSome data (7 * (data.length + 1) + 1) offset [] false 0 (by omega)
  obtain ⟨r, hr⟩ := Option.isSome_iff_exists.mp h
  rw [hr]
  simp [decodeDomainName, hr]

/- Header roundtrip (claim C4). -/

/-- Bitwise or of values occupying disjoint binary ranges is addition:
if `a` is a multiple of `2^k` and `b < 2^k`, then `a ||| b = a + b`. -/
lemma lor_eq_add_pow : ∀ (k a b : Nat), a % 2 ^ k = 0 → b < 2 ^ k → a ||| b = a + b := by
  intro k
  induction k with
  | zero =>
    intro a b ha hb
    interval_cases b
    simp
  | succ k ih =>
    intro a b ha hb
    rw [pow_succ] at ha hb
    obtain ⟨m, hm⟩ := Nat.dvd_of_mod_eq_zero ha
    have hX : a = 2 ^ k * m * 2 := by rw [hm]; ring
    have hmod : 2 ^ k * m % 2 ^ k = 0 := Nat.mul_mod_right (2 ^ k) m
    have hb2 : b / 2 < 2 ^ k := by omega
    have hdiv : a / 2 = 2 ^ k * m := by omega
    have hmod2 : (a / 2) % 2 ^ k = 0 := by rw [hdiv]; exact hmod
    have hih := ih (a / 2) (b / 2) hmod2 hb2
    have hba : a = Nat.bit false (a / 2) := by simp [Nat.bit]; omega
    have hbb : b = Nat.bit (decide (b % 2 = 1)) (b / 2) := by
      rcases Nat.mod_two_eq_zero_or_one b with h | h <;> simp [Nat.bit, h] <;> omega
    rw [hba, hbb, Nat.lor_bit, Bool.false_or, hih]
    rcases Nat.mod_two_eq_zero_or_one b with h | h <;> simp [Nat.bit, h] <;> omega

/-- Under the declared field bounds, the flags word is the sum of its
disjoint bit fields. -/
lemma mkFlags_sum (qb op ab tb rb rab z rc : Nat)
    (hqb : qb ≤ 1) (hop : op < 16) (hab : ab ≤ 1) (htb : tb ≤ 1) (hrb : rb ≤ 1)
    (hrab : rab ≤ 1) (hz : z < 8) (hrc : rc < 16) :
    mkFlags qb op ab tb rb rab z rc =
      qb * 32768 + op * 2048 + ab * 1024 + tb * 512 + rb * 256 + rab * 128 + z * 16 + rc := by
  unfold mkFlags
  simp only [Nat.shiftLeft_eq]
  norm_num
  have e1 : op * 2048 % 65536 = op * 2048 := Nat.mod_eq_of_lt (by omega)
  rw [e1]
  rw [lor_eq_add_pow 15 (qb * 32768) (op * 2048) (by norm_num) (by norm_num; omega)]
  rw [lor_eq_add_pow 11 (qb * 32768 + op * 2048) (ab * 1024) (by norm_num; omega) (by norm_num; omega)]
  rw [lor_eq_add_pow 10 _ (tb * 512) (by norm_num; omega) (by norm_num; omega)]
  rw [lor_eq_add_pow 9 _ (rb * 256) (by norm_num; omega) (by norm_num; omega)]
  rw [lor_eq_add_pow 8 _ (rab * 128) (by norm_num; omega) (by norm_num; omega)]
  rw [lor_eq_add_pow 7 _ (z * 16) (by norm_num; omega) (by norm_num; omega)]
  rw [lor_eq_add_pow 4 _ rc (by norm_num; omega) (by norm_num; omega)]

/-- Extraction of each bit field from the sum form of the flags word. -/
lemma flags_extract (S qb op ab tb rb rab z rc : Nat)
    (hS : S = qb * 32768 + op * 2048 + ab * 1024 + tb * 512 + rb * 256 + rab * 128 + z * 16 + rc)
    (hqb : qb ≤ 1) (hop : op < 16) (hab : ab ≤ 1) (htb : tb ≤ 1) (hrb : rb ≤ 1)
    (hrab : rab ≤ 1) (hz : z < 8) (hrc : rc < 16) :
    S < 65536 ∧
    S &&& 32768 = qb * 32768 ∧ (S >>> 11) &&& 15 = op ∧ S &&& 1024 = ab * 1024 ∧
    S &&& 512 = tb * 512 ∧ S &&& 256 = rb * 256 ∧ S &&& 128 = rab * 128 ∧
    (S >>> 4) &&& 7 = z ∧ S &&& 15 = rc := by
  have hbit : ∀ i : Nat, S &&& 2 ^ i = (decide (S / 2 ^ i % 2 = 1)).toNat * 2 ^ i := by
    intro i
    rw [Nat.and_two_pow, Nat.testBit_to_div_mod]
  have h15 := hbit 15
  have h10 := hbit 10
  have h9 := hbit 9
  have h8 := hbit 8
  have h7 := hbit 7
  norm_num at h15 h10 h9 h8 h7
  have hmod15 : S &&& 15 = S % 16 := by
    have := Nat.and_pow_two_sub_one_eq_mod S 4
    norm_num at this
    exact this
  have hsh11m : (S >>> 11) &&& 15 = S / 2048 % 16 := by
    rw [Nat.shiftRight_eq_div_pow]
    have := Nat.and_pow_two_sub_one_eq_mod (S / 2 ^ 11) 4
    norm_num at this ⊢
    exact this
  have hsh4m : (S >>> 4) &&& 7 = S / 16 % 8 := by
    rw [Nat.shiftRight_eq_div_pow]
    have := Nat.and_pow_two_sub_one_eq_mod (S / 2 ^ 4) 3
    norm_num at this ⊢
    exact this
  refine ⟨by omega, ?_, ?_, ?_, ?_, ?_, ?_, ?_, ?_⟩
  · rw [h15]
    rcases Nat.le_one_iff_eq_zero_or_eq_one.mp hqb with h | h <;> subst h <;> simp <;> omega
  · rw [hsh11m]; omega
  · rw [h10]
    rcases Nat.le_one_iff_eq_zero_or_eq_one.mp hab with h | h <;> subst h <;> simp <;> omega
  · rw [h9]
    rcases Nat.le_one_iff_eq_zero_or_eq_one.mp htb with h | h <;> subst h <;> simp <;> omega
  · rw [h8]
    rcases Nat.le_one_iff_eq_zero_or_eq_one.mp hrb with h | h <;> subst h <;> simp <;> omega
  · rw [h7]
    rcases Nat.le_one_iff_eq_zero_or_eq_one.mp hrab with h | h <;> subst h <;> simp <;> omega
  · rw [hsh4m]; omega
  · rw [hmod15]; omega

/-- Claim C4: packing a Header whose fields are within their declared
bit ranges into the 12 wire bytes and extracting the fields back, as
Serialize and Deserialize do, recovers the Header exactly. -/
theorem header_roundtrip (h : Header)
    (hid : h.ID < 65536) (hop : h.OpCode < 16) (hz : h.Z < 8) (hrc : h.ResponseCode < 16)
    (hqc : h.QuestionCount < 65536) (hac : h.AnswerCount < 65536)
    (hauc : h.AuthorityCount < 65536) (hadc : h.AdditionalCount < 65536) :
    (headerBytes h).length = 12 ∧ parseHeader (headerBytes h) = h := by
  obtain ⟨id, qr, op, aa, tc, rd, ra, z, rc, qc, ac, auc, adc⟩ := h
  simp only at hid hop hz hrc hqc hac hauc hadc
  refine ⟨rfl, ?_⟩
  have hF : headerFlags ⟨id, qr, op, aa, tc, rd, ra, z, rc, qc, ac, auc, adc⟩ =
      (if qr then 1 else 0) * 32768 + op * 2048 + (if aa then 1 else 0) * 1024 +
        (if tc then 1 else 0) * 512 + (if rd then 1 else 0) * 256 +
        (if ra then 1 else 0) * 128 + z * 16 + rc :=
    mkFlags_sum _ op _ _ _ _ z rc (by cases qr <;> simp) hop (by cases aa <;> simp)
      (by cases tc <;> simp) (by cases rd <;> simp) (by cases ra <;> simp) hz hrc
  obtain ⟨hlt, e15, e11, e10, e9, e8, e7, e4, e0⟩ :=
    flags_extract (headerFlags ⟨id, qr, op, aa, tc, rd, ra, z, rc, qc, ac, auc, adc⟩)
      (if qr then 1 else 0) op (if aa then 1 else 0) (if tc then 1 else 0)
      (if rd then 1 else 0) (if ra then 1 else 0) z rc hF
      (by cases qr <;> simp) hop (by cases aa <;> simp) (by cases tc <;> simp)
      (by cases rd <;> simp) (by cases ra <;> simp) hz hrc
  have hred : parseHeader (headerBytes ⟨id, qr, op, aa, tc, rd, ra, z, rc, qc, ac, auc, adc⟩) =
      (let F := headerFlags ⟨id, qr, op, aa, tc, rd, ra, z, rc, qc, ac, auc, adc⟩
       let flags := getUint16 (F / 256 % 256) (F % 256)
       ⟨getUint16 (id / 256 % 256) (id % 256),
        decide (flags &&& 32768 ≠ 0),
        (flags >>> 11) &&& 15,
        decide (flags &&& 1024 ≠ 0),
        decide (flags &&& 512 ≠ 0),
        decide (flags &&& 256 ≠ 0),
        decide (flags &&& 128 ≠ 0),
        (flags >>> 4) &&& 7,
        flags &&& 15,
        getUint16 (qc / 256 % 256) (qc % 256),
        getUint16 (ac / 256 % 256) (ac % 256),
        getUint16 (auc / 256 % 256) (auc % 256),
        getUint16 (adc / 256 % 256) (adc % 256)⟩) := rfl
  rw [hred]
  simp only
  have hflags : getUint16 (headerFlags ⟨id, qr, op, aa, tc, rd, ra, z, rc, qc, ac, auc, adc⟩ / 256 % 256)
      (headerFlags ⟨id, qr, op, aa, tc, rd, ra, z, rc, qc, ac, auc, adc⟩ % 256) =
      headerFlags ⟨id, qr, op, aa, tc, rd, ra, z, rc, qc, ac, auc, adc⟩ := by
    simp only [getUint16]
    omega
  rw [hflags]
  simp only [Header.mk.injEq]
  refine ⟨by simp only [getUint16]; omega, ?_, ?_, ?_, ?_, ?_, ?_, ?_, ?_,
    by simp only [getUint16]; omega, by simp only [getUint16]; omega,
    by simp only [getUint16]; omega, by simp only [getUint16]; omega⟩
  · rw [e15]; cases qr <;> simp
  · exact e11
  · rw [e10]; cases aa <;> simp
  · rw [e9]; cases tc <;> simp
  · rw [e8]; cases rd <;> simp
  · rw [e7]; cases ra <;> simp
  · exact e4
  · exact e0

/-- Witness for claim C4 at a concrete header. -/
theorem header_roundtrip_witness :
    (headerBytes ⟨4660, true, 0, false, false, true, true, 0, 0, 1, 2, 3, 4⟩).length = 12 ∧
      parseHeader (headerBytes ⟨4660, true, 0, false, false, true, true, 0, 0, 1, 2, 3, 4⟩) =
        ⟨4660, true, 0, false, false, true, true, 0, 0, 1, 2, 3, 4⟩ :=
  header_roundtrip ⟨4660, true, 0, false, false, true, true, 0, 0, 1, 2, 3, 4⟩
    (by decide) (by decide) (by decide) (by decide) (by decide) (by decide)
    (by decide) (by decide)

/- Encode/decode roundtrip (claim C3). -/

lemma splitOnDot_ne_nil (s : List Nat) : splitOnDot s ≠ [] := by
  cases s with
  | nil => simp [splitOnDot]
  | cons b rest =>
    simp only [splitOnDot]
    split
    · simp
    · cases h : splitOnDot rest <;> simp

lemma joinDot_splitOnDot (s : List Nat) : joinDot (splitOnDot s) = s := by
  induction s with
  | nil => rfl
  | cons b rest ih =>
    by_cases hb : b = 46
    · subst hb
      simp only [splitOnDot, if_pos rfl]
      cases h : splitOnDot rest with
      | nil => exact absurd h (splitOnDot_ne_nil rest)
      | cons l ls =>
        rw [h] at ih
        simpa [joinDot] using ih
    · simp only [splitOnDot, if_neg hb]
      cases h : splitOnDot rest with
      | nil => exact absurd h (splitOnDot_ne_nil rest)
      | cons l ls =>
        rw [h] at ih
        cases ls with
        | nil =>
          simp only [joinDot] at ih ⊢
          rw [ih]
        | cons l' ls' =>
          simp only [joinDot, List.cons_append] at ih ⊢
          rw [ih]

lemma encodeLabels_ok (ls : List (List Nat)) (h : ∀ l ∈ ls, l.length ≤ 63) :
    encodeLabels ls = .ok (encBytes ls) := by
  induction ls with
  | nil => rfl
  | cons l ls ih =>
    have hl : l.length ≤ 63 := h l (by simp)
    simp only [encodeLabels, if_neg (by omega : ¬ 63 < l.length)]
    rw [ih (fun x hx => h x (by simp [hx]))]
    rfl

lemma flat46_ne_nil (l : List Nat) (ls : List (List Nat)) : flat46 (l :: ls) ≠ [] := by
  cases l <;> simp [flat46]

lemma dropLast_flat46 (ls : List (List Nat)) (h : ls ≠ []) :
    (flat46 ls).dropLast = joinDot ls := by
  induction ls with
  | nil => exact absurd rfl h
  | cons l ls ih =>
    cases ls with
    | nil => simp [flat46, joinDot, List.dropLast_concat]
    | cons l' ls' =>
      have h2 : flat46 (l' :: ls') ≠ [] := flat46_ne_nil l' ls'
      have hne : (46 :: flat46 (l' :: ls') : List Nat) ≠ [] := by simp
      rw [show flat46 (l :: l' :: ls') = l ++ 46 :: flat46 (l' :: ls') from rfl]
      rw [List.dropLast_append_of_ne_nil _ hne, List.dropLast_cons_of_ne_nil h2]
      rw [ih (by simp)]
      rfl

/-- Decoding an encoded label sequence: if the buffer from the cursor
on holds the length-prefixed labels followed by the zero terminator,
the loop accumulates exactly those labels (each with a trailing dot)
and stops just past the terminator.  Labels must be nonempty (an
empty label's zero length byte would terminate the loop early) and at
most 63 bytes (so the length byte is not mistaken for a pointer). -/
lemma decodeLoopF_encoded :
    ∀ (ls : List (List Nat)) (front post acc : List Nat) (jumped : Bool) (jumps fuel : Nat),
      (∀ l ∈ ls, l ≠ [] ∧ l.length ≤ 63) → jumps ≤ 5 → ls.length + 1 ≤ fuel →
      decodeLoopF (front ++ (encBytes ls ++ 0 :: post)) fuel front.length acc jumped jumps =
        some (.ok (finalizeName (acc ++ flat46 ls), front.length + (encBytes ls).length + 1)) := by
  intro ls
  induction ls with
  | nil =>
    intro front post acc jumped jumps fuel hls hj hf
    cases fuel with
    | zero => omega
    | succ f =>
      simp only [encBytes, flat46, List.nil_append, List.append_nil, List.length_nil]
      simp only [decodeLoopF]
      rw [if_neg (by omega : ¬ 5 < jumps)]
      rw [if_neg (show ¬ (front ++ 0 :: post).length ≤ front.length by simp)]
      rw [List.getD_append_right front (0 :: post) 0 front.length (le_refl _)]
      simp only [Nat.sub_self, List.getD_cons_zero, if_pos rfl]
      simp
  | cons l ls ih =>
    intro front post acc jumped jumps fuel hls hj hf
    cases fuel with
    | zero => simp at hf
    | succ f =>
      obtain ⟨hlne, hl63⟩ := hls l (by simp)
      have hrest : ∀ x ∈ ls, x ≠ [] ∧ x.length ≤ 63 := fun x hx => hls x (by simp [hx])
      have hlz : l.length ≠ 0 := fun hh => hlne (List.length_eq_zero.mp hh)
      have hdata : front ++ (encBytes (l :: ls) ++ 0 :: post) =
          front ++ l.length :: (l ++ (encBytes ls ++ 0 :: post)) := by
        simp [encBytes]
      rw [hdata]
      simp only [decodeLoopF]
      rw [if_neg (by omega : ¬ 5 < jumps)]
      rw [if_neg (show ¬ (front ++ l.length :: (l ++ (encBytes ls ++ 0 :: post))).length ≤ front.length
        by simp)]
      rw [List.getD_append_right front _ 0 front.length (le_refl _)]
      simp only [Nat.sub_self, List.getD_cons_zero]
      rw [if_neg hlz]
      rw [if_neg (show ¬ l.length &&& 192 = 192 by
        have := Nat.and_le_left (n := l.length) (m := 192); omega)]
      rw [if_neg (show ¬ (front ++ l.length :: (l ++ (encBytes ls ++ 0 :: post))).length <
          front.length + 1 + l.length by simp; omega)]
      have hdrop : ((front ++ l.length :: (l ++ (encBytes ls ++ 0 :: post))).drop (front.length + 1)) =
          l ++ (encBytes ls ++ 0 :: post) := by
        have := List.drop_left (front ++ [l.length]) (l ++ (encBytes ls ++ 0 :: post))
        simpa using this
      rw [hdrop, List.take_left]
      have hIH := ih (front ++ l.length :: l) post (acc ++ l ++ [46]) jumped jumps f hrest hj
        (by simp at hf ⊢; omega)
      have hdat2 : (front ++ l.length :: l) ++ (encBytes ls ++ 0 :: post) =
          front ++ l.length :: (l ++ (encBytes ls ++ 0 :: post)) := by simp
      have hoff : (front ++ l.length :: l).length = front.length + 1 + l.length := by simp; omega
      rw [hdat2, hoff] at hIH
      have hacc : (acc ++ l ++ [46]) ++ flat46 ls = acc ++ flat46 (l :: ls) := by simp [flat46]
      have hlen2 : front.length + 1 + l.length + (encBytes ls).length + 1 =
          front.length + (encBytes (l :: ls)).length + 1 := by simp [encBytes]; omega
      rw [hacc, hlen2] at hIH
      exact hIH

lemma encBytes_length_ge (ls : List (List Nat)) : ls.length ≤ (encBytes ls).length := by
  induction ls with
  | nil => simp [encBytes]
  | cons l ls ih => simp [encBytes]; omega

/-- Claim C3 (amended): for every domain name whose dot-separated
labels are all nonempty and at most 63 bytes, encoding succeeds and
decoding the encoded bytes from offset 0 returns the original name
with the cursor equal to the encoded length.  (Names with empty
labels — including the root "." and the empty name — break the
roundtrip: the zero length byte of an empty label terminates decoding
early.) -/
theorem encode_decode_roundtrip (name : List Nat)
    (h : ∀ l ∈ splitOnDot name, l ≠ [] ∧ l.length ≤ 63) :
    ∃ enc, encodeDomainName name = .ok enc ∧
      decodeDomainName enc 0 = .ok (name, enc.length) := by
  have henc : encodeLabels (splitOnDot name) = .ok (encBytes (splitOnDot name)) :=
    encodeLabels_ok _ (fun l hl => (h l hl).2)
  refine ⟨encBytes (splitOnDot name) ++ [0], ?_, ?_⟩
  · simp [encodeDomainName, henc]
  · have hfne : flat46 (splitOnDot name) ≠ [] := by
      cases hsp : splitOnDot name with
      | nil => exact absurd hsp (splitOnDot_ne_nil name)
      | cons l ls => exact flat46_ne_nil l ls
    have hfuel : (splitOnDot name).length + 1 ≤
        7 * ((encBytes (splitOnDot name) ++ [0]).length + 1) + 1 := by
      have := encBytes_length_ge (splitOnDot name)
      simp
      omega
    have hmain := decodeLoopF_encoded (splitOnDot name) [] [] [] false 0
      (7 * ((encBytes (splitOnDot name) ++ [0]).length + 1) + 1) h (by omega) hfuel
    simp only [List.nil_append, List.length_nil] at hmain
    rw [show encBytes (splitOnDot name) ++ 0 :: ([] : List Nat) =
        encBytes (splitOnDot name) ++ [0] from rfl] at hmain
    unfold decodeDomainName
    rw [hmain]
    have hfin : finalizeName (flat46 (splitOnDot name)) = name := by
      unfold finalizeName
      rw [if_pos (List.length_pos.mpr hfne)]
      rw [dropLast_flat46 _ (splitOnDot_ne_nil name), joinDot_splitOnDot]
    simp [hfin]

/-- Witness for claim C3's amended roundtrip at the concrete name
"ab.c". -/
theorem encode_decode_roundtrip_witness :
    ∃ enc, encodeDomainName [97, 98, 46, 99] = .ok enc ∧
      decodeDomainName enc 0 = .ok ([97, 98, 46, 99], enc.length) :=
  encode_decode_roundtrip [97, 98, 46, 99] (by decide)

/- Section counts (claim C7) and truncated RDATA (claim C9). -/

/-- The per-section loop consumes exactly the requested number of
records: a successful parse of `n` records yields a list of length
`n`. -/
lemma deserializeRecords_length (data : List Nat) :
    ∀ (n offset : Nat) (l : List ResourceRecord) (off' : Nat),
      deserializeRecords data offset n = .ok (l, off') → l.length = n := by
  intro n
  induction n with
  | zero =>
    intro offset l off' h
    simp only [deserializeRecords] at h
    cases h
    rfl
  | succ n ih =>
    intro offset l off' h
    simp only [deserializeRecords] at h
    cases h1 : deserializeResourceRecord data offset with
    | error e => rw [h1] at h; simp at h
    | ok p =>
      obtain ⟨rr, o1⟩ := p
      rw [h1] at h
      simp only at h
      cases h2 : deserializeRecords data o1 n with
      | error e => rw [h2] at h; simp at h
      | ok q =>
        obtain ⟨rest, o2⟩ := q
        rw [h2] at h
        simp only at h
        cases h
        simp [ih o1 rest off' h2]

/-- Claim C7 (amended): every successful Deserialize consumes exactly
one question (at offset 12, regardless of the declared QuestionCount)
and exactly AnswerCount, AuthorityCount and AdditionalCount resource
records in the three sections. -/
theorem deserialize_counts (data : List Nat) (p : Packet)
    (h : Packet.Deserialize data = .ok p) :
    (∃ off1, deserializeQuestion data 12 = .ok (p.Question, off1)) ∧
      p.Answer.length = p.Header.AnswerCount ∧
      p.Authority.length = p.Header.AuthorityCount ∧
      p.Additional.length = p.Header.AdditionalCount := by
  unfold Packet.Deserialize at h
  split at h
  · simp at h
  · cases hq : deserializeQuestion data 12 with
    | error e => rw [hq] at h; simp at h
    | ok qp =>
      obtain ⟨q, off1⟩ := qp
      rw [hq] at h
      simp only at h
      cases ha : deserializeRecords data off1 (parseHeader data).AnswerCount with
      | error e => rw [ha] at h; simp at h
      | ok ap =>
        obtain ⟨ans, off2⟩ := ap
        rw [ha] at h
        simp only at h
        cases hu : deserializeRecords data off2 (parseHeader data).AuthorityCount with
        | error e => rw [hu] at h; simp at h
        | ok up =>
          obtain ⟨auth, off3⟩ := up
          rw [hu] at h
          simp only at h
          cases hd : deserializeRecords data off3 (parseHeader data).AdditionalCount with
          | error e => rw [hd] at h; simp at h
          | ok dp =>
            obtain ⟨addl, off4⟩ := dp
            rw [hd] at h
            simp only at h
            cases h
            refine ⟨⟨off1, rfl⟩, ?_, ?_, ?_⟩
            · exact deserializeRecords_length data _ off1 ans off2 ha
            · exact deserializeRecords_length data _ off2 auth off3 hu
            · exact deserializeRecords_length data _ off3 addl off4 hd

/-- Witness for claim C7's amended statement at the concrete buffer
`qc2Data`. -/
theorem deserialize_counts_witness :
    (∃ off1, deserializeQuestion qc2Data 12 = .ok (qc2Packet.Question, off1)) ∧
      qc2Packet.Answer.length = qc2Packet.Header.AnswerCount ∧
      qc2Packet.Authority.length = qc2Packet.Header.AuthorityCount ∧
      qc2Packet.Additional.length = qc2Packet.Header.AdditionalCount :=
  deserialize_counts qc2Data qc2Packet rfl

/-- Claim C9: when the header declares AnswerCount = 1 and the buffer
ends before the answer record's declared RDLength bytes of RDATA are
available (the record's name and ten fixed bytes having parsed), the
whole Deserialize fails with the "packet too short" error — it never
succeeds with a truncated payload. -/
theorem deserialize_truncated_rdata (data : List Nat) (q : Question) (off1 : Nat)
    (nm : List Nat) (off2 : Nat)
    (hlen : ¬ data.length < 12)
    (hac : (parseHeader data).AnswerCount = 1)
    (hq : deserializeQuestion data 12 = .ok (q, off1))
    (hn : decodeDomainName data off1 = .ok (nm, off2))
    (hfix : ¬ data.length < off2 + 10)
    (hrd : data.length < off2 + 10 + getUint16 (data.getD (off2 + 8) 0) (data.getD (off2 + 9) 0)) :
    Packet.Deserialize data = .error .tooShort := by
  have hrr : deserializeResourceRecord data off1 = .error .tooShort := by
    unfold deserializeResourceRecord
    rw [hn]
    simp only
    rw [if_neg hfix, if_pos hrd]
  have hrecs : deserializeRecords data off1 1 = .error .tooShort := by
    simp [deserializeRecords, hrr]
  unfold Packet.Deserialize
  rw [if_neg hlen, hq]
  simp only
  rw [hac, hrecs]

/-- Witness for claim C9 at the concrete truncated buffer. -/
theorem deserialize_truncated_rdata_witness :
    Packet.Deserialize truncatedRDataPacket = .error .tooShort :=
  deserialize_truncated_rdata truncatedRDataPacket ⟨[46], 1, 1⟩ 17 [46] 18
    (by decide) rfl rfl rfl (by decide) (by decide)
